import Mathlib

/-!
# Verification of the Shakespeare play-analysis core

A shallow embedding of the text-normalization, play-structure parsing and
character-interaction-network code of the repository
(`src/utils/text_processing.py`, `src/data/parser.py`,
`src/services/network.py`, `scripts/network.py`), together with theorems
settling the specification claims about it.

Python strings are modelled as Lean `String` / `List Char`; Python `dict`s
(which preserve insertion order and have unique keys) are modelled as
association lists with an update-or-append write; Python floats arising from
`1/1` and `1/2` sums are modelled exactly as rationals.
-/

namespace Shakespeare

/-! ## Python string primitives -/

/-- Python's `\s` character class and the default `str.strip()` class,
restricted to the ASCII range that occurs in the play texts:
space, tab, newline, carriage return, vertical tab, form feed. -/
def isPySpace (c : Char) : Bool :=
  c = ' ' || c = '\t' || c = '\n' || c = '\r' || c = '\x0b' || c = '\x0c'

/-- Uppercase ASCII letter, Python's `[A-Z]`. -/
def isUpperAZ (c : Char) : Bool :=
  'A' ≤ c && c ≤ 'Z'

/-- Drop trailing characters satisfying `p` (the right half of `str.strip()`). -/
def dropTrail (p : Char → Bool) (cs : List Char) : List Char :=
  (cs.reverse.dropWhile p).reverse

/-- `str.strip()` on a character list. -/
def stripChars (cs : List Char) : List Char :=
  dropTrail isPySpace (cs.dropWhile isPySpace)

/-- Python `str.strip()` (whitespace from both ends). -/
def pyStrip (s : String) : String :=
  (stripChars s.data).asString

/-- First index at or after `i` where `pat` occurs in `cs`
(`str.find` search loop). -/
def findSubFrom (cs pat : List Char) (i : Nat) : Option Nat :=
  if pat.isPrefixOf cs then some i
  else
    match cs with
    | [] => none
    | _ :: rest => findSubFrom rest pat (i + 1)

/-- Python `hay.find(needle)`, as an `Option Nat` (Python's `-1` is `none`). -/
def pyFindOpt (hay needle : String) : Option Nat :=
  findSubFrom hay.data needle.data 0

/-- Python `needle in hay` (substring containment). -/
def containsSub (hay needle : String) : Bool :=
  (pyFindOpt hay needle).isSome

/-- Python `hay.find(needle, start)` for a non-negative `start`. -/
def pyFindFrom (hay needle : String) (start : Nat) : Option Nat :=
  (findSubFrom (hay.data.drop start) needle.data 0).map (· + start)

/-- Python slice `s[a:b]` for `0 ≤ a` and `0 ≤ b ≤ len(s)`
(an empty string when `a ≥ b`). -/
def pySlice (s : String) (a b : Nat) : String :=
  ((s.data.drop a).take (b - a)).asString

/-- Python `s.split('\n')`: accumulator-based splitting on the newline
character; always returns at least one (possibly empty) piece. -/
def splitNLAux (acc : List Char) : List Char → List String
  | [] => [acc.reverse.asString]
  | c :: rest =>
    if c = '\n' then acc.reverse.asString :: splitNLAux [] rest
    else splitNLAux (c :: acc) rest

/-- Python `s.split('\n')`. -/
def splitNL (s : String) : List String :=
  splitNLAux [] s.data

/-! ## TextNormalizer (`clean_gutenberg_text`, `src/utils/text_processing.py`) -/

/-- The `start_markers` list of `clean_gutenberg_text` (the third entry is a
footer string that the source nevertheless lists among the start markers). -/
def start_markers : List String :=
  ["*** START OF THE PROJECT GUTENBERG",
   "*** START OF THIS PROJECT GUTENBERG",
   "End of Project Gutenberg's"]

/-- The `end_markers` list of `clean_gutenberg_text`. -/
def end_markers : List String :=
  ["*** END OF THE PROJECT GUTENBERG",
   "*** END OF THIS PROJECT GUTENBERG",
   "End of Project Gutenberg's"]

/-- The marker loop of `clean_gutenberg_text`: the position of the first
marker, in list order, that occurs in `text` (`for marker in markers:
pos = text.find(marker); if pos != -1: ... break`). -/
def firstMarkerPos (markers : List String) (text : String) : Option Nat :=
  match markers with
  | [] => none
  | m :: rest =>
    match pyFindOpt text m with
    | some p => some p
    | none => firstMarkerPos rest text

/-- `clean_gutenberg_text` (TextNormalizer.normalize): find the start
boilerplate marker and begin after its line break (Python computes
`text.find("\n", pos) + 1`, which is `0` when no newline follows), find the
end marker and cut before it, then strip whitespace. -/
def clean_gutenberg_text (text : String) : String :=
  let startPos : Nat :=
    match firstMarkerPos start_markers text with
    | some p =>
      match pyFindFrom text "\n" p with
      | some q => q + 1
      | none => 0
    | none => 0
  let endPos : Nat :=
    match firstMarkerPos end_markers text with
    | some p => p
    | none => text.length
  pyStrip (pySlice text startPos endPos)

/-! ## StructureParser (`extract_play_structure`, `src/data/parser.py`) -/

/-- One table-of-contents entry: `{"act": ..., "scenes": [...]}`. -/
structure ActEntry where
  act : String
  scenes : List String
  deriving DecidableEq, Repr

/-- Python `dict` write `m[k] = v`: replace the value at an existing key in
place, otherwise append the new key at the end (insertion order). -/
def assocSet {κ α : Type} [DecidableEq κ] (m : List (κ × α)) (k : κ) (v : α) :
    List (κ × α) :=
  match m with
  | [] => [(k, v)]
  | (k', v') :: rest =>
    if k' = k then (k, v) :: rest else (k', v') :: assocSet rest k v

/-- Python `dict` lookup `m.get(k)`. -/
def assocGet {κ α : Type} [DecidableEq κ] (m : List (κ × α)) (k : κ) :
    Option α :=
  match m with
  | [] => none
  | (k', v') :: rest => if k' = k then some v' else assocGet rest k

/-- The nested dictionary of `extract_play_structure`: act label → scene
label → scene text. -/
abbrev ActsScenes := List (String × List (String × String))

/-- The write `acts_scenes[current_act][current_scene] = '\n'.join(content)`
(creating the inner dictionary when the act key is absent). -/
def writeScene (m : ActsScenes) (act scene content : String) : ActsScenes :=
  match assocGet m act with
  | some inner => assocSet m act (assocSet inner scene content)
  | none => assocSet m act [(scene, content)]

/-- `act_pattern.match(line)` for `^ACT [IVX]+`: the line starts with
`"ACT "` followed by at least one Roman-numeral character. -/
def actMatch (line : String) : Bool :=
  match line.data with
  | 'A' :: 'C' :: 'T' :: ' ' :: c :: _ => c = 'I' || c = 'V' || c = 'X'
  | _ => false

/-- Roman numeral character class `[IVX]`. -/
def isIVX (c : Char) : Bool :=
  c = 'I' || c = 'V' || c = 'X'

/-- `scene_pattern.match(line)` for `^SCENE [IVX]+\.`: after `"SCENE "`,
the (greedy, maximal) run of Roman-numeral characters is non-empty and is
followed immediately by a period. -/
def sceneMatch (line : String) : Bool :=
  match line.data with
  | 'S' :: 'C' :: 'E' :: 'N' :: 'E' :: ' ' :: rest =>
    let run := rest.takeWhile isIVX
    let rest' := rest.dropWhile isIVX
    !run.isEmpty && rest'.head? = some '.'
  | _ => false

/-- The mutable locals of the `extract_play_structure` line loop. -/
structure ParseState where
  toc : List ActEntry
  actsScenes : ActsScenes
  currentAct : String
  currentScene : String
  sceneContent : List String
  deriving DecidableEq, Repr

/-- The initial parse state. -/
def initParseState : ParseState :=
  { toc := [], actsScenes := [], currentAct := "", currentScene := "",
    sceneContent := [] }

/-- The mid-loop flush performed on seeing an act or scene header: when both
a current act and a current scene are active (non-empty strings), write the
joined content buffer — with no emptiness check on the buffer. -/
def flushMid (st : ParseState) : ParseState :=
  if st.currentAct ≠ "" ∧ st.currentScene ≠ "" then
    { st with actsScenes :=
        (writeScene st.actsScenes st.currentAct st.currentScene
          (String.intercalate "\n" st.sceneContent)) }
  else st

/-- `toc[-1]["scenes"].append(scene)` guarded by `if toc:`. -/
def appendSceneToLast (toc : List ActEntry) (scene : String) : List ActEntry :=
  match toc with
  | [] => []
  | [e] => [{ e with scenes := e.scenes ++ [scene] }]
  | e :: rest => e :: appendSceneToLast rest scene

/-- One iteration of the `for line in lines:` loop of
`extract_play_structure`.  Note that the act-header branch resets the
content buffer but does **not** reset `currentScene` (exactly as the
source code does). -/
def processLine (st : ParseState) (rawLine : String) : ParseState :=
  let line := pyStrip rawLine
  if line = "" then st
  else if actMatch line then
    let st' := flushMid st
    { st' with currentAct := line, sceneContent := [],
               toc := st'.toc ++ [{ act := line, scenes := [] }] }
  else if sceneMatch line then
    let st' := flushMid st
    { st' with currentScene := line, sceneContent := [],
               toc := appendSceneToLast st'.toc line }
  else if st.currentAct ≠ "" ∧ st.currentScene ≠ "" then
    { st with sceneContent := st.sceneContent ++ [line] }
  else st

/-- The preprocessing slice `text[text.find("Dramatis Personæ"):-1]`: when
the marker is absent, Python's `find` yields `-1` and the slice
`text[-1:-1]` is empty; when found at `k`, the slice drops the final
character of the input. -/
def sliceDP (text : String) : String :=
  match pyFindOpt text "Dramatis Personæ" with
  | none => ""
  | some k => pySlice text k (text.length - 1)

/-- The final flush after the line loop: unlike the mid-loop flush it also
requires a non-empty content buffer. -/
def flushFinal (st : ParseState) : ParseState :=
  if st.currentAct ≠ "" ∧ st.currentScene ≠ "" ∧ st.sceneContent ≠ [] then
    { st with actsScenes :=
        (writeScene st.actsScenes st.currentAct st.currentScene
          (String.intercalate "\n" st.sceneContent)) }
  else st

/-- `extract_play_structure` (StructureParser.parse): slice from the
"Dramatis Personæ" marker, split into lines, run the header/content state
machine, and perform the trailing flush. -/
def extract_play_structure (text : String) :
    List ActEntry × ActsScenes :=
  let st := (splitNL (sliceDP text)).foldl processLine initParseState
  let st := flushFinal st
  (st.toc, st.actsScenes)

/-! ## CharacterExtractor (`extract_characters`, `src/data/parser.py`)

`re.findall(r'^([A-Z]{2,}[A-Z\s]*?)\.', text, re.MULTILINE)`: at a line
start, two uppercase letters followed by a lazy run of uppercase/whitespace
characters up to the first period.  Because the period is not in the
character class, a single-position match attempt succeeds exactly when the
first character outside the class is a period. -/

/-- The lazy tail `[A-Z\s]*?\.` of the cue pattern: consume
uppercase/whitespace characters up to the first period, returning the
consumed group part and the remainder after the period. -/
def scanToDot : List Char → Option (List Char × List Char)
  | [] => none
  | c :: cs =>
    if c = '.' then some ([], cs)
    else if isUpperAZ c || isPySpace c then
      match scanToDot cs with
      | some (l, r) => some (c :: l, r)
      | none => none
    else none

/-- A single match attempt of `([A-Z]{2,}[A-Z\s]*?)\.` at the head of `cs`:
on success, the captured group and the text after the period. -/
def matchCue : List Char → Option (List Char × List Char)
  | c1 :: c2 :: rest =>
    if isUpperAZ c1 && isUpperAZ c2 then
      match scanToDot rest with
      | some (l, r) => some (c1 :: c2 :: l, r)
      | none => none
    else none
  | _ => none

/-- The `re.findall` scan with the MULTILINE anchor `^`: attempt a match at
the string start and after every newline, resuming after each
(non-overlapping) match.  `fuel` bounds the recursion; every step consumes
at least one character, so `fuel = length` is always sufficient. -/
def findCuesF : Nat → Bool → List Char → List String
  | 0, _, _ => []
  | _ + 1, _, [] => []
  | n + 1, lineStart, c :: rest =>
    if lineStart then
      match matchCue (c :: rest) with
      | some (label, r) => label.asString :: findCuesF n false r
      | none => findCuesF n (c = '\n') rest
    else findCuesF n (c = '\n') rest

/-- `extract_characters`: the cue labels found in the text, dedivided into a
duplicate-free list.  The source returns `list(set(characters))`, whose
order is unspecified; only the underlying set of this list is meaningful. -/
def extract_characters (s : String) : List String :=
  (findCuesF s.data.length true s.data).dedup

/-! ## DialogueSequencer (`extract_scene_dialogues`, `src/services/network.py`)

Speaker pattern `re.findall(r'\n([A-Z]{2,}(?:\s+[A-Z]{2,})*)\.\s', scene)`:
a newline, then space-separated all-caps tokens of length at least two,
then a period followed by one whitespace character. -/

/-- The terminator `\.\s` of the speaker pattern, checked at the position
where the token loop stops: a period, then one whitespace character. -/
def speakerEnd (acc rest : List Char) : Option (List Char × List Char) :=
  match rest with
  | '.' :: w :: rest' => if isPySpace w then some (acc, rest') else none
  | _ => none

/-- The greedy token loop `(?:\s+[A-Z]{2,})*` followed by `\.\s`: repeatedly
consume a non-empty whitespace run followed by an uppercase run of length
at least two; when no further token group fits, require a period and one
whitespace character.  (Backtracking to fewer groups can never succeed
because the character at an earlier group boundary is whitespace, not a
period.)  Accumulates the captured label in `acc`. -/
def speakerTokensF : Nat → List Char → List Char → Option (List Char × List Char)
  | 0, _, _ => none
  | n + 1, acc, rest =>
    let s := rest.takeWhile isPySpace
    let rest1 := rest.dropWhile isPySpace
    let r := rest1.takeWhile isUpperAZ
    let rest2 := rest1.dropWhile isUpperAZ
    if !s.isEmpty && 2 ≤ r.length then
      speakerTokensF n (acc ++ s ++ r) rest2
    else
      speakerEnd acc rest

/-- A single match attempt of the speaker pattern immediately after a
newline: a maximal uppercase run of length at least two, then the token
loop.  Returns the captured label and the text after the trailing
whitespace character. -/
def matchSpeaker (cs : List Char) : Option (List Char × List Char) :=
  let r1 := cs.takeWhile isUpperAZ
  let rest1 := cs.dropWhile isUpperAZ
  if 2 ≤ r1.length then speakerTokensF (cs.length + 1) r1 rest1 else none

/-- The `re.findall` scan for the speaker pattern: attempt a match at every
newline, resuming after the trailing whitespace character of each match
(so that whitespace character — possibly itself a newline — is consumed). -/
def findSpeakersF : Nat → List Char → List String
  | 0, _ => []
  | _ + 1, [] => []
  | n + 1, c :: rest =>
    if c = '\n' then
      match matchSpeaker rest with
      | some (label, r) => label.asString :: findSpeakersF n r
      | none => findSpeakersF n rest
    else findSpeakersF n rest

/-- The ordered speaker-cue sequence of one scene fragment. -/
def findSpeakers (s : String) : List String :=
  findSpeakersF s.data.length s.data

/-- A single match attempt of the split pattern `SCENE [IVX]+\.` at the
head of `cs`: on success, the remainder after the consumed header. -/
def matchScenePat : List Char → Option (List Char)
  | 'S' :: 'C' :: 'E' :: 'N' :: 'E' :: ' ' :: rest =>
    let run := rest.takeWhile isIVX
    let rest' := rest.dropWhile isIVX
    if run.isEmpty then none
    else
      match rest' with
      | '.' :: r => some r
      | _ => none
  | _ => none

/-- `re.split(r'SCENE [IVX]+\.', text)`: scan left to right, cutting at
every non-overlapping occurrence of the pattern; the piece before the
first occurrence (the prelude) is element 0 of the result. -/
def reSplitSceneF : Nat → List Char → List Char → List String
  | 0, acc, cs => [(acc.reverse ++ cs).asString]
  | n + 1, acc, cs =>
    match matchScenePat cs with
    | some r => acc.reverse.asString :: reSplitSceneF n [] r
    | none =>
      match cs with
      | [] => [acc.reverse.asString]
      | c :: rest => reSplitSceneF n (c :: acc) rest

/-- `re.split(r'SCENE [IVX]+\.', text)`. -/
def reSplitScene (s : String) : List String :=
  reSplitSceneF (s.data.length + 1) [] s.data

/-- The per-fragment body of the `extract_scene_dialogues` loop: skip
fragments that strip to the empty string, emit the speaker sequence when
it is non-empty. -/
def procFrag (scene : String) : Option (List String) :=
  if pyStrip scene = "" then none
  else
    let sp := findSpeakers scene
    if sp = [] then none else some sp

/-- `extract_scene_dialogues` (`src/services/network.py`; the
`scripts/network.py` copy differs only in lacking the strip-emptiness
guard, which never changes the output since a whitespace-only fragment has
no speakers).  The `try`/`except` wrapper of the source cannot fire on a
string input and the `TypeError` branch is outside the `String` domain. -/
def extract_scene_dialogues (text : String) : List (List String) :=
  (reSplitScene text).filterMap procFrag

/-! ## InteractionGraphBuilder (`calculate_interaction_weights`,
`create_character_network`) -/

/-- Python `sorted([x, y])` for two strings, as an ordered pair. -/
def sortPair (x y : String) : String × String :=
  if x ≤ y then (x, y) else (y, x)

/-- `defaultdict` accumulation `weights[k] += d`: add at an existing key in
place, otherwise append the key with value `d`. -/
def addW (w : List ((String × String) × ℚ)) (k : String × String) (d : ℚ) :
    List ((String × String) × ℚ) :=
  match w with
  | [] => [(k, d)]
  | (k', v) :: rest =>
    if k' = k then (k', v + d) :: rest else (k', v) :: addW rest k d

/-- `calculate_interaction_weights`: for every scene sequence, every index
`i`, and every `j` in `range(max(0, i-2), min(n, i+3))` with `j ≠ i`,
accumulate `1/|i-j|` at the sorted pair of the two speakers.  (With natural
subtraction, `i - 2` is `max(0, i-2)` and the `range'` count realizes the
half-open Python range.) -/
def calculate_interaction_weights (sds : List (List String)) :
    List ((String × String) × ℚ) :=
  sds.foldl (fun w scene =>
    (List.range scene.length).foldl (fun w i =>
      (List.range' (i - 2) (min scene.length (i + 3) - (i - 2))).foldl
        (fun w j =>
          if i ≠ j then
            addW w (sortPair (scene.getD i "") (scene.getD j ""))
              (1 / ((max i j - min i j : Nat) : ℚ))
          else w) w) w) []

/-- A `networkx.Graph` snapshot: node list and weighted edge list, both in
insertion order. -/
structure NXGraph where
  nodes : List String
  edges : List ((String × String) × ℚ)
  deriving DecidableEq, Repr

/-- `G.add_node(n)` (no effect when the node exists). -/
def addNode (g : NXGraph) (n : String) : NXGraph :=
  if n ∈ g.nodes then g else { g with nodes := g.nodes ++ [n] }

/-- Replace the weight of an existing edge between `u` and `v` (in either
orientation) or append a fresh edge. -/
def setEdge (es : List ((String × String) × ℚ)) (u v : String) (w : ℚ) :
    List ((String × String) × ℚ) :=
  match es with
  | [] => [((u, v), w)]
  | ((a, b), w') :: rest =>
    if (a = u && b = v) || (a = v && b = u) then ((a, b), w) :: rest
    else ((a, b), w') :: setEdge rest u v w

/-- `G.add_edge(u, v, weight=w)`: register both endpoints as nodes and set
the (undirected) edge weight. -/
def addEdge (g : NXGraph) (u v : String) (w : ℚ) : NXGraph :=
  let g1 := addNode (addNode g u) v
  { g1 with edges := setEdge g1.edges u v w }

/-- Does the graph contain an edge between `u` and `v` (either
orientation)? -/
def hasEdge (g : NXGraph) (u v : String) : Bool :=
  g.edges.any fun e => (e.1.1 = u && e.1.2 = v) || (e.1.1 = v && e.1.2 = u)

/-- `create_character_network` (`scripts/network.py`): seed nodes from the
dramatis-personae descriptions, then add one weighted edge per accumulated
interaction weight. -/
def create_character_network (sds : List (List String))
    (descs : List (String × String)) : NXGraph :=
  let g0 := descs.foldl (fun g p => addNode g p.1) ⟨[], []⟩
  (calculate_interaction_weights sds).foldl
    (fun g e => addEdge g e.1.1 e.1.2 e.2) g0

/-- The graph built inside `get_character_metrics` and
`create_character_network_graph` (`src/services/network.py`): edges from
the weights only, no description seeding. -/
def graphFromWeights (ws : List ((String × String) × ℚ)) : NXGraph :=
  ws.foldl (fun g e => addEdge g e.1.1 e.1.2 e.2) ⟨[], []⟩

/-- `get_character_metrics` (`src/services/network.py`).  The three
centrality computations are calls into the external `networkx` library and
are taken here as function parameters; the membership guard and the
returned key set are the source's own logic. -/
def get_character_metrics (degF betF eigF : NXGraph → String → ℚ)
    (text character : String) : List (String × ℚ) :=
  let G := graphFromWeights (calculate_interaction_weights
    (extract_scene_dialogues text))
  if character ∈ G.nodes then
    [("degree", degF G character), ("betweenness", betF G character),
     ("eigenvector", eigF G character)]
  else []

/-! ## Claim theorems: concrete evaluations -/

/-- **C1, counterexample.**  On the literal input of the claim the parser
returns an empty table of contents and empty `ActsScenes`: the input does
not contain the required "Dramatis Personæ" marker, so the preprocessing
slice keeps only the empty string — not a table of contents with act
"ACT I" as the claim states. -/
theorem c1_counterexample :
    extract_play_structure "ACT I\nSCENE I.\nSCENE II.\nHELLO. Hi there.\n"
      = ([], []) := by
  decide

/-- **C1, amended.**  With the "Dramatis Personæ" marker prepended, the
table of contents lists act "ACT I" with scenes ["SCENE I.", "SCENE II."];
but `ActsScenes["ACT I"]` contains **both** scene keys — "SCENE I." is
written with empty content, because the mid-parse flush performed on
seeing the next header does not check the buffer for emptiness.  Only the
final end-of-input flush drops a scene whose buffer is empty. -/
theorem c1_amended :
    extract_play_structure
        "Dramatis Personæ\nACT I\nSCENE I.\nSCENE II.\nHELLO. Hi there.\n"
      = ([{ act := "ACT I", scenes := ["SCENE I.", "SCENE II."] }],
         [("ACT I", [("SCENE I.", ""), ("SCENE II.", "HELLO. Hi there.")])]) := by
  decide

/-- **C2.**  For the single scene sequence `["A","B","A"]` the accumulated
weight of the canonical pair `("A","B")` is exactly `4`: the four ordered
index pairs at distance one each contribute `1`. -/
theorem c2_weight_example :
    assocGet (calculate_interaction_weights [["A", "B", "A"]]) ("A", "B")
      = some 4 := by
  simp +decide [calculate_interaction_weights, List.range_succ, List.range',
    addW, sortPair, assocGet]
  norm_num

/-- **C3, counterexample.**  The interaction graph can contain a self-loop:
in the scene sequence `["A","B","A"]` the character "A" speaks at indices
0 and 2 (distance two), so the weight key `("A","A")` is accumulated and
`create_character_network` adds the edge `(A, A)`. -/
theorem c3_counterexample :
    hasEdge (create_character_network [["A", "B", "A"]] []) "A" "A" = true := by
  have h4 : calculate_interaction_weights [["A", "B", "A"]]
      = [(("A", "B"), 4), (("A", "A"), 1)] := by
    simp +decide [calculate_interaction_weights, List.range_succ, List.range',
      addW, sortPair]
    norm_num
  simp +decide [create_character_network, h4, addEdge, addNode, setEdge, hasEdge]

/-- **C4, counterexample.**  `extract_scene_dialogues` does **not** exclude
the text before the first scene header: `re.split` keeps that prelude as
fragment 0 and the loop processes it like any other fragment.  Here the
cue "HAMLET." occurs strictly before the first "SCENE I." occurrence, yet
`["HAMLET"]` is the first emitted per-scene sequence. -/
theorem c4_counterexample :
    reSplitScene "\nHAMLET. Hi there.\nSCENE I.\nBARNARDO. Who?\n"
        = ["\nHAMLET. Hi there.\n", "\nBARNARDO. Who?\n"] ∧
    findSpeakers "\nHAMLET. Hi there.\n" = ["HAMLET"] ∧
    extract_scene_dialogues "\nHAMLET. Hi there.\nSCENE I.\nBARNARDO. Who?\n"
        = [["HAMLET"], ["BARNARDO"]] := by
  refine ⟨by decide, by decide, by decide⟩

/-- **C5, counterexample.**  The two cue extractors are not equivalent on a
fragment: the dialogue-sequencer pattern requires a newline before the
label and a whitespace character after the period, while the
CharacterExtractor pattern anchors at line start (including the start of
the fragment) and requires nothing after the period.  On the fragment
`"HAMLET. Hi"` the emitted speaker sequence is empty while
`extract_characters` finds `HAMLET` — the label sets differ. -/
theorem c5_counterexample :
    findSpeakers "HAMLET. Hi" = [] ∧
    extract_characters "HAMLET. Hi" = ["HAMLET"] ∧
    extract_scene_dialogues "HAMLET. Hi" = [] := by
  refine ⟨by decide, by decide, by decide⟩

/-- **C6, counterexample.**  Lines appearing after an act header but before
the first scene header of that act **are** stored in `ActsScenes` under
that act: the act-header branch resets the content buffer but not the
current scene, so the stale scene label of the previous act stays active.
Here "bar" — between "ACT II" and its first scene header — is flushed as
`ActsScenes["ACT II"]["SCENE I."]`. -/
theorem c6_counterexample :
    extract_play_structure
        "Dramatis Personæ\nACT I\nSCENE I.\nfoo\nACT II\nbar\nSCENE II.\nbaz\n"
      = ([{ act := "ACT I", scenes := ["SCENE I."] },
          { act := "ACT II", scenes := ["SCENE II."] }],
         [("ACT I", [("SCENE I.", "foo")]),
          ("ACT II", [("SCENE I.", "bar"), ("SCENE II.", "baz")])]) := by
  decide

/-! ## Claim theorems: general statements -/

/-- **C7.**  The preprocessing slice `text[text.find("Dramatis Personæ"):-1]`
governs everything: (1) when the input does not contain the marker, `find`
returns `-1`, the slice keeps only the empty string, and the parser returns
an empty table of contents and empty `ActsScenes` even if act and scene
headers are present; (2) the final character of the input is discarded, so
a trailing "SCENE II." header at end of input loses its period, fails the
scene pattern, and is swallowed into the previous scene's content. -/
theorem c7_marker_gate_and_truncation :
    (∀ t : String, containsSub t "Dramatis Personæ" = false →
      extract_play_structure t = ([], [])) ∧
    extract_play_structure "Dramatis Personæ\nACT I\nSCENE I.\nfoo\nSCENE II."
      = ([{ act := "ACT I", scenes := ["SCENE I."] }],
         [("ACT I", [("SCENE I.", "foo\nSCENE II")])]) := by
  constructor
  · intro t h
    have h' : pyFindOpt t "Dramatis Personæ" = none := by
      cases hf : pyFindOpt t "Dramatis Personæ" with
      | none => rfl
      | some v => rw [containsSub, hf] at h; simp at h
    unfold extract_play_structure sliceDP
    rw [h']
    rfl
  · decide

/-- **C7, witness.**  A header-bearing text without the marker parses to
nothing. -/
theorem c7_marker_gate_witness :
    extract_play_structure "ACT I\nSCENE I.\nX\n" = ([], []) :=
  c7_marker_gate_and_truncation.1 "ACT I\nSCENE I.\nX\n" (by decide)

/-- **C10.**  `get_character_metrics` returns the empty mapping whenever the
requested character is not a node of the interaction graph built from the
text, and returns exactly the degree/betweenness/eigenvector entries when
it is.  The three centrality computations are external `networkx` calls,
universally quantified here; the membership guard is the source's own. -/
theorem c10_absent_character_metrics (degF betF eigF : NXGraph → String → ℚ)
    (text character : String) :
    (character ∉ (graphFromWeights (calculate_interaction_weights
        (extract_scene_dialogues text))).nodes →
      get_character_metrics degF betF eigF text character = []) ∧
    (character ∈ (graphFromWeights (calculate_interaction_weights
        (extract_scene_dialogues text))).nodes →
      get_character_metrics degF betF eigF text character =
        [("degree", degF (graphFromWeights (calculate_interaction_weights
            (extract_scene_dialogues text))) character),
         ("betweenness", betF (graphFromWeights (calculate_interaction_weights
            (extract_scene_dialogues text))) character),
         ("eigenvector", eigF (graphFromWeights (calculate_interaction_weights
            (extract_scene_dialogues text))) character)]) := by
  unfold get_character_metrics
  constructor <;> intro h <;> simp [h]

/-- **C10, witness.**  On an empty text the graph has no nodes and the
metrics mapping is empty. -/
theorem c10_absent_character_metrics_witness :
    get_character_metrics (fun _ _ => 0) (fun _ _ => 0) (fun _ _ => 0) "" "A"
      = [] :=
  (c10_absent_character_metrics (fun _ _ => 0) (fun _ _ => 0) (fun _ _ => 0)
    "" "A").1 (by decide)

/-- **C6, amended.**  A non-blank, non-header line is appended to the scene
content buffer exactly while both `current_act` and `current_scene` are
non-empty.  However, the act-header branch does **not** clear
`current_scene`, so after an act header the scene label of the previous
act stays active: lines before the new act's first scene header are
appended and later stored under the new act (see the counterexample) —
the claim's "in particular" consequence fails. -/
theorem c6_amended_append_guard :
    (∀ (st : ParseState) (line : String),
      st.currentAct = "" ∨ st.currentScene = "" →
      (processLine st line).sceneContent = st.sceneContent ∨
      (processLine st line).sceneContent = []) ∧
    (∀ (st : ParseState) (line : String),
      st.currentAct ≠ "" → st.currentScene ≠ "" → pyStrip line ≠ "" →
      actMatch (pyStrip line) = false → sceneMatch (pyStrip line) = false →
      (processLine st line).sceneContent = st.sceneContent ++ [pyStrip line]) := by
  constructor
  · intro st line h
    by_cases h1 : pyStrip line = ""
    · left; simp [processLine, h1]
    · by_cases h2 : actMatch (pyStrip line)
      · right; simp [processLine, h1, h2]
      · by_cases h3 : sceneMatch (pyStrip line)
        · right; simp [processLine, h1, h2, h3]
        · left
          have h4 : ¬(st.currentAct ≠ "" ∧ st.currentScene ≠ "") := by
            rcases h with h | h <;> simp [h]
          simp [processLine, h1, h2, h3, h4]
  · intro st line h1 h2 h3 h4 h5
    simp [processLine, h1, h2, h3, h4, h5]

/-- **C6, witness.**  With no act active, a content line is not buffered. -/
theorem c6_amended_append_guard_witness :
    (processLine initParseState "hello").sceneContent
        = initParseState.sceneContent ∨
    (processLine initParseState "hello").sceneContent = [] :=
  c6_amended_append_guard.1 initParseState "hello" (Or.inl rfl)

/-! ## Invariants of the weight accumulation -/

/-- A `List.foldl` step that preserves an invariant (with membership of the
step element available) preserves it globally. -/
theorem foldl_preserve_mem {α β : Type} (P : α → Prop) (f : α → β → α)
    (l : List β) (h : ∀ a b, b ∈ l → P a → P (f a b)) :
    ∀ a, P a → P (l.foldl f a) := by
  induction l with
  | nil => exact fun a ha => ha
  | cons x xs ih =>
    intro a ha
    exact ih (fun a b hb => h a b (List.mem_cons_of_mem _ hb)) _
      (h a x (List.mem_cons_self _ _) ha)

/-- Every key of `addW w k d` is a key of `w` or is `k`. -/
theorem addW_keys (w : List ((String × String) × ℚ)) (k : String × String)
    (d : ℚ) :
    ∀ k' ∈ (addW w k d).map Prod.fst, k' ∈ w.map Prod.fst ∨ k' = k := by
  induction w with
  | nil => intro k' hk'; right; simpa [addW] using hk'
  | cons p rest ih =>
    rcases p with ⟨pk, pv⟩
    intro k' hk'
    simp only [addW] at hk'
    by_cases hp : pk = k
    · rw [if_pos hp] at hk'
      simp only [List.map_cons, List.mem_cons] at hk'
      rcases hk' with rfl | hk'
      · left; exact List.mem_cons_self _ _
      · left; exact List.mem_cons_of_mem _ hk'
    · rw [if_neg hp] at hk'
      simp only [List.map_cons, List.mem_cons] at hk'
      rcases hk' with rfl | hk'
      · left; exact List.mem_cons_self _ _
      · rcases ih k' hk' with h | h
        · left; exact List.mem_cons_of_mem _ h
        · right; exact h

/-- `sorted([x, y])` produces a pair in non-decreasing order. -/
theorem sortPair_le (x y : String) : (sortPair x y).1 ≤ (sortPair x y).2 := by
  unfold sortPair
  split_ifs with h
  · exact h
  · exact le_of_not_le h

/-- `sorted([x, y])` of two distinct strings has distinct components. -/
theorem sortPair_ne {x y : String} (h : x ≠ y) :
    (sortPair x y).1 ≠ (sortPair x y).2 := by
  unfold sortPair
  split_ifs with h'
  · exact h
  · exact fun e => h e.symm

/-- Every key accumulated by `calculate_interaction_weights` is sorted. -/
theorem weights_keys_sorted (sds : List (List String)) :
    ∀ k ∈ (calculate_interaction_weights sds).map Prod.fst, k.1 ≤ k.2 := by
  unfold calculate_interaction_weights
  refine foldl_preserve_mem
    (fun w : List ((String × String) × ℚ) => ∀ k ∈ w.map Prod.fst, k.1 ≤ k.2)
    _ _ ?_ [] (by simp)
  intro w scene _ hw
  refine foldl_preserve_mem
    (fun w : List ((String × String) × ℚ) => ∀ k ∈ w.map Prod.fst, k.1 ≤ k.2)
    _ _ ?_ w hw
  intro w1 i _ hw1
  refine foldl_preserve_mem
    (fun w : List ((String × String) × ℚ) => ∀ k ∈ w.map Prod.fst, k.1 ≤ k.2)
    _ _ ?_ w1 hw1
  intro w2 j _ hw2
  by_cases hij : i ≠ j
  · rw [if_pos hij]
    intro k hk
    rcases addW_keys _ _ _ k hk with hk' | rfl
    · exact hw2 k hk'
    · exact sortPair_le _ _
  · rw [if_neg hij]; exact hw2

/-- **C9.**  Every key of the weight mapping is a lexicographically sorted
pair, and for a pair of distinct characters no reverse-order key exists:
the stored weight is symmetric by pair canonicalization alone. -/
theorem c9_sorted_canonical_keys (sds : List (List String)) (a b : String)
    (h : (a, b) ∈ (calculate_interaction_weights sds).map Prod.fst) :
    a ≤ b ∧ (a ≠ b →
      (b, a) ∉ (calculate_interaction_weights sds).map Prod.fst) := by
  have hs := weights_keys_sorted sds
  refine ⟨hs _ h, fun hne hmem => ?_⟩
  exact hne (le_antisymm (hs _ h) (hs _ hmem))

/-- **C9, witness.**  For the scene sequence `["B","A"]` the single key is
the sorted pair `("A","B")` and no reverse key is stored. -/
theorem c9_sorted_canonical_keys_witness :
    ("A", "B") ∈ (calculate_interaction_weights [["B", "A"]]).map Prod.fst ∧
    ("A" ≤ "B" ∧ ("A" ≠ "B" →
      ("B", "A") ∉ (calculate_interaction_weights [["B", "A"]]).map Prod.fst)) := by
  have hw : calculate_interaction_weights [["B", "A"]] = [(("A", "B"), 2)] := by
    simp +decide [calculate_interaction_weights, List.range_succ, List.range',
      addW, sortPair]
    norm_num
  have hmem : ("A", "B")
      ∈ (calculate_interaction_weights [["B", "A"]]).map Prod.fst := by
    rw [hw]; simp
  exact ⟨hmem, c9_sorted_canonical_keys [["B", "A"]] "A" "B" hmem⟩

/-- `addNode` never changes the edge list. -/
theorem addNode_edges (g : NXGraph) (n : String) :
    (addNode g n).edges = g.edges := by
  unfold addNode
  split_ifs <;> rfl

/-- `addEdge` acts on the edge list exactly as `setEdge`. -/
theorem addEdge_edges (g : NXGraph) (u v : String) (w : ℚ) :
    (addEdge g u v w).edges = setEdge g.edges u v w := by
  unfold addEdge
  simp [addNode_edges]

/-- Every edge after `setEdge` carries an existing edge's key or the new
pair. -/
theorem setEdge_keys (es : List ((String × String) × ℚ)) (u v : String)
    (w : ℚ) :
    ∀ e ∈ setEdge es u v w, (∃ e' ∈ es, e'.1 = e.1) ∨ e.1 = (u, v) := by
  induction es with
  | nil =>
    intro e he
    simp only [setEdge, List.mem_singleton] at he
    subst he
    right; rfl
  | cons p rest ih =>
    rcases p with ⟨⟨a, b⟩, w'⟩
    intro e he
    simp only [setEdge] at he
    by_cases hc : (a = u && b = v) || (a = v && b = u)
    · rw [if_pos hc] at he
      rcases List.mem_cons.mp he with rfl | he'
      · exact Or.inl ⟨((a, b), w'), List.mem_cons_self _ _, rfl⟩
      · exact Or.inl ⟨e, List.mem_cons_of_mem _ he', rfl⟩
    · rw [if_neg hc] at he
      rcases List.mem_cons.mp he with rfl | he'
      · exact Or.inl ⟨((a, b), w'), List.mem_cons_self _ _, rfl⟩
      · rcases ih e he' with ⟨e', he'', heq⟩ | heq
        · exact Or.inl ⟨e', List.mem_cons_of_mem _ he'', heq⟩
        · exact Or.inr heq

/-- Under the no-repetition-within-the-window hypothesis, every accumulated
weight key joins two distinct characters. -/
theorem weights_keys_ne (sds : List (List String))
    (h : ∀ scene ∈ sds, ∀ i < scene.length, ∀ j < scene.length,
      i ≠ j → max i j - min i j ≤ 2 → scene.getD i "" ≠ scene.getD j "") :
    ∀ k ∈ (calculate_interaction_weights sds).map Prod.fst, k.1 ≠ k.2 := by
  unfold calculate_interaction_weights
  refine foldl_preserve_mem
    (fun w : List ((String × String) × ℚ) => ∀ k ∈ w.map Prod.fst, k.1 ≠ k.2)
    _ _ ?_ [] (by simp)
  intro w scene hscene hw
  refine foldl_preserve_mem
    (fun w : List ((String × String) × ℚ) => ∀ k ∈ w.map Prod.fst, k.1 ≠ k.2)
    _ _ ?_ w hw
  intro w1 i hi hw1
  refine foldl_preserve_mem
    (fun w : List ((String × String) × ℚ) => ∀ k ∈ w.map Prod.fst, k.1 ≠ k.2)
    _ _ ?_ w1 hw1
  intro w2 j hj hw2
  by_cases hij : i ≠ j
  · rw [if_pos hij]
    intro k hk
    rcases addW_keys _ _ _ k hk with hk' | rfl
    · exact hw2 k hk'
    · have hi' : i < scene.length := List.mem_range.mp hi
      obtain ⟨t, ht, hjeq⟩ := List.mem_range'.mp hj
      have hm1 := Nat.min_le_left scene.length (i + 3)
      have hm2 := Nat.min_le_right scene.length (i + 3)
      have hj1 : j < scene.length := by omega
      have hdist : max i j - min i j ≤ 2 := by omega
      exact sortPair_ne (h scene hscene i hi' j hj1 hij hdist)
  · rw [if_neg hij]; exact hw2

/-- **C3, amended.**  The interaction graph contains no self-loop provided
no scene sequence has the same character at two distinct indices within
turn distance two; without that proviso self-loops do occur (see the
counterexample: `["A","B","A"]` produces the edge `(A, A)`). -/
theorem c3_amended_no_self_loops (sds : List (List String))
    (descs : List (String × String))
    (h : ∀ scene ∈ sds, ∀ i < scene.length, ∀ j < scene.length,
      i ≠ j → max i j - min i j ≤ 2 → scene.getD i "" ≠ scene.getD j "") :
    ∀ c : String, hasEdge (create_character_network sds descs) c c = false := by
  intro c
  have hkeys := weights_keys_ne sds h
  have hedges : ∀ e ∈ (create_character_network sds descs).edges,
      e.1.1 ≠ e.1.2 := by
    unfold create_character_network
    refine foldl_preserve_mem
      (fun g : NXGraph => ∀ e ∈ g.edges, e.1.1 ≠ e.1.2) _ _ ?_ _ ?_
    · intro g kv hkv hg e he
      rw [addEdge_edges] at he
      rcases setEdge_keys _ _ _ _ e he with ⟨e', he', heq⟩ | heq
      · have := hg e' he'
        rw [heq] at this
        exact this
      · have hkne := hkeys kv.1 (List.mem_map_of_mem Prod.fst hkv)
        rw [heq]
        exact hkne
    · refine foldl_preserve_mem
        (fun g : NXGraph => ∀ e ∈ g.edges, e.1.1 ≠ e.1.2) _ _ ?_ _ ?_
      · intro g p _ hg e he
        rw [addNode_edges] at he
        exact hg e he
      · intro e he
        simp at he
  unfold hasEdge
  rw [List.any_eq_false]
  intro e he
  have hne := hedges e he
  simp only [Bool.or_eq_true, Bool.and_eq_true, decide_eq_true_eq]
  rintro (⟨h1, h2⟩ | ⟨h1, h2⟩) <;> exact hne (h1.trans h2.symm)

/-- **C3, amended, witness.**  A sequence without repeated speakers in the
window yields a graph with no self-loop at "A". -/
theorem c3_amended_no_self_loops_witness :
    hasEdge (create_character_network [["A", "B"]] []) "A" "A" = false :=
  c3_amended_no_self_loops [["A", "B"]] [] (by decide) "A"

/-! ## Lemmas about `find`, `strip` and the normalizer -/

/-- `findSubFrom` succeeds exactly when the pattern occurs as an infix. -/
theorem findSubFrom_isSome_iff (pat : List Char) :
    ∀ (cs : List Char) (i : Nat),
      (findSubFrom cs pat i).isSome = true ↔ ∃ a b, cs = a ++ pat ++ b := by
  intro cs
  induction cs with
  | nil =>
    intro i
    rw [findSubFrom]
    constructor
    · intro h
      split_ifs at h with hp
      · obtain ⟨t, ht⟩ := List.isPrefixOf_iff_prefix.mp hp
        exact ⟨[], t, by simp [← ht]⟩
      · simp at h
    · rintro ⟨a, b, hab⟩
      have hab' : a ++ (pat ++ b) = [] := by simpa using hab.symm
      rcases List.append_eq_nil.mp hab' with ⟨ha, hpb⟩
      rcases List.append_eq_nil.mp hpb with ⟨hpat, hb⟩
      subst hpat
      simp
  | cons c rest ih =>
    intro i
    rw [findSubFrom]
    by_cases hp : pat.isPrefixOf (c :: rest)
    · rw [if_pos hp]
      simp only [Option.isSome_some, true_iff]
      obtain ⟨t, ht⟩ := List.isPrefixOf_iff_prefix.mp hp
      exact ⟨[], t, by simp [← ht]⟩
    · rw [if_neg hp, ih (i + 1)]
      constructor
      · rintro ⟨a, b, hab⟩
        exact ⟨c :: a, b, by simp [hab]⟩
      · rintro ⟨a, b, hab⟩
        cases a with
        | nil =>
          exfalso
          apply hp
          rw [List.isPrefixOf_iff_prefix]
          exact ⟨b, by simpa using hab.symm⟩
        | cons a0 a' =>
          simp only [List.cons_append, List.cons.injEq] at hab
          exact ⟨a', b, hab.2⟩

/-- Python substring containment, characterized as infix occurrence. -/
theorem containsSub_iff (hay needle : String) :
    containsSub hay needle = true ↔
      ∃ a b, hay.data = a ++ needle.data ++ b := by
  unfold containsSub pyFindOpt
  exact findSubFrom_isSome_iff _ _ 0

/-- The stripped string occurs inside the original. -/
theorem stripChars_infix (cs : List Char) :
    ∃ a b, cs = a ++ stripChars cs ++ b := by
  refine ⟨cs.takeWhile isPySpace,
    ((cs.dropWhile isPySpace).reverse.takeWhile isPySpace).reverse, ?_⟩
  unfold stripChars dropTrail
  conv_lhs => rw [← List.takeWhile_append_dropWhile (p := isPySpace) (l := cs)]
  rw [List.append_assoc]
  congr 1
  rw [← List.reverse_append, List.takeWhile_append_dropWhile,
    List.reverse_reverse]

/-- `dropWhile` is idempotent. -/
theorem dropWhile_dropWhile (p : Char → Bool) (l : List Char) :
    (l.dropWhile p).dropWhile p = l.dropWhile p := by
  induction l with
  | nil => rfl
  | cons c r ih =>
    by_cases hc : p c
    · simp [List.dropWhile_cons, hc, ih]
    · simp [List.dropWhile_cons, hc]

/-- `dropTrail` is idempotent. -/
theorem dropTrail_dropTrail (p : Char → Bool) (l : List Char) :
    dropTrail p (dropTrail p l) = dropTrail p l := by
  unfold dropTrail
  rw [List.reverse_reverse, dropWhile_dropWhile]

/-- A list unchanged by `dropWhile p` stays unchanged after `dropTrail p`. -/
theorem dropWhile_dropTrail (p : Char → Bool) (z : List Char)
    (hz : z.dropWhile p = z) : (dropTrail p z).dropWhile p = dropTrail p z := by
  have hpre : ∃ w, z = dropTrail p z ++ w := by
    refine ⟨(z.reverse.takeWhile p).reverse, ?_⟩
    unfold dropTrail
    rw [← List.reverse_append, List.takeWhile_append_dropWhile,
      List.reverse_reverse]
  obtain ⟨w, hw⟩ := hpre
  cases hd : dropTrail p z with
  | nil => rfl
  | cons c t =>
    have hzc : z = c :: (t ++ w) := by rw [hw, hd]; rfl
    have hpc : p c = false := by
      by_contra hpc
      have hpc' : p c = true := by
        cases hc2 : p c
        · exact absurd hc2 hpc
        · rfl
      have hdw : List.dropWhile p (t ++ w) = c :: (t ++ w) := by
        have h0 := hz
        rw [hzc, List.dropWhile_cons, hpc'] at h0
        simpa using h0
      have hlen := congrArg List.length hdw
      have hle := (List.dropWhile_sublist (l := t ++ w) p).length_le
      simp only [List.length_cons] at hlen
      omega
    simp [List.dropWhile_cons, hpc]

/-- `stripChars` is idempotent. -/
theorem stripChars_stripChars (cs : List Char) :
    stripChars (stripChars cs) = stripChars cs := by
  have hz : (cs.dropWhile isPySpace).dropWhile isPySpace
      = cs.dropWhile isPySpace := dropWhile_dropWhile _ _
  show stripChars (dropTrail isPySpace (cs.dropWhile isPySpace))
      = dropTrail isPySpace (cs.dropWhile isPySpace)
  unfold stripChars
  rw [dropWhile_dropTrail _ _ hz, dropTrail_dropTrail]

/-- `str.strip()` is idempotent. -/
theorem pyStrip_pyStrip (x : String) : pyStrip (pyStrip x) = pyStrip x := by
  unfold pyStrip
  rw [show ((stripChars x.data).asString).data = stripChars x.data from rfl,
    stripChars_stripChars]

/-- When no marker of the list occurs, the marker loop finds nothing. -/
theorem firstMarkerPos_none (markers : List String) (text : String)
    (h : ∀ m ∈ markers, containsSub text m = false) :
    firstMarkerPos markers text = none := by
  induction markers with
  | nil => rfl
  | cons m rest ih =>
    have hm : pyFindOpt text m = none := by
      cases hf : pyFindOpt text m with
      | none => rfl
      | some v =>
        have := h m (List.mem_cons_self _ _)
        rw [containsSub, hf] at this
        simp at this
    rw [firstMarkerPos, hm]
    exact ih fun m' hm' => h m' (List.mem_cons_of_mem _ hm')

/-- Marker-free texts are only stripped by the normalizer. -/
theorem clean_gutenberg_noMarkers (x : String)
    (h : ∀ m ∈ start_markers ++ end_markers, containsSub x m = false) :
    clean_gutenberg_text x = pyStrip x := by
  have hs : firstMarkerPos start_markers x = none :=
    firstMarkerPos_none _ _ fun m hm => h m (List.mem_append_left _ hm)
  have he : firstMarkerPos end_markers x = none :=
    firstMarkerPos_none _ _ fun m hm => h m (List.mem_append_right _ hm)
  unfold clean_gutenberg_text
  rw [hs, he]
  show pyStrip (pySlice x 0 x.length) = pyStrip x
  congr 1
  unfold pySlice
  rw [List.drop_zero, Nat.sub_zero,
    show x.length = x.data.length from rfl, List.take_length]
  cases x
  rfl

/-- A substring of the stripped text is a substring of the original. -/
theorem containsSub_pyStrip (x m : String)
    (h : containsSub (pyStrip x) m = true) : containsSub x m = true := by
  rw [containsSub_iff] at h ⊢
  obtain ⟨a, b, hab⟩ := h
  obtain ⟨a', b', hx⟩ := stripChars_infix x.data
  rw [show (pyStrip x).data = stripChars x.data from rfl] at hab
  refine ⟨a' ++ a, b ++ b', ?_⟩
  rw [hx, hab]
  simp [List.append_assoc]

/-- **C8.**  For every string containing none of the start or end
boilerplate markers, `clean_gutenberg_text` degrades to plain whitespace
stripping (total, no exception possible in the model), and it is
idempotent: stripping is idempotent and cannot introduce a marker. -/
theorem c8_clean_gutenberg_idempotent (x : String)
    (h : ∀ m ∈ start_markers ++ end_markers, containsSub x m = false) :
    clean_gutenberg_text x = pyStrip x ∧
    clean_gutenberg_text (clean_gutenberg_text x) = clean_gutenberg_text x := by
  have h1 := clean_gutenberg_noMarkers x h
  have h2 : ∀ m ∈ start_markers ++ end_markers,
      containsSub (pyStrip x) m = false := by
    intro m hm
    cases hc : containsSub (pyStrip x) m with
    | false => rfl
    | true => exact absurd (containsSub_pyStrip x m hc) (by simp [h m hm])
  exact ⟨h1, by rw [h1, clean_gutenberg_noMarkers _ h2, pyStrip_pyStrip]⟩

/-- **C8, witness.**  A marker-free literal is stripped and stable. -/
theorem c8_clean_gutenberg_idempotent_witness :
    clean_gutenberg_text "  hello  " = pyStrip "  hello  " ∧
    clean_gutenberg_text (clean_gutenberg_text "  hello  ")
      = clean_gutenberg_text "  hello  " :=
  c8_clean_gutenberg_idempotent "  hello  " (by decide)

/-- **C4, amended.**  The fragment before the first scene header is **not**
discarded by `extract_scene_dialogues`: whenever the first piece of the
`re.split` result is non-blank and contains at least one speaker cue, its
cue sequence is emitted as the first per-scene sequence. -/
theorem c4_amended_prelude_included (t fr : String) (rest : List String)
    (h : reSplitScene t = fr :: rest) (h1 : pyStrip fr ≠ "")
    (h2 : findSpeakers fr ≠ []) :
    (extract_scene_dialogues t).head? = some (findSpeakers fr) := by
  have hf : procFrag fr = some (findSpeakers fr) := by
    unfold procFrag
    rw [if_neg h1]
    simp [h2]
  unfold extract_scene_dialogues
  rw [h, List.filterMap_cons_some hf]
  rfl

/-- **C4, amended, witness.**  A prelude with the cue "AB." contributes the
first emitted sequence. -/
theorem c4_amended_prelude_included_witness :
    (extract_scene_dialogues "\nAB. x\nSCENE I.\nCD. y\n").head?
      = some (findSpeakers "\nAB. x\n") :=
  c4_amended_prelude_included "\nAB. x\nSCENE I.\nCD. y\n" "\nAB. x\n"
    ["\nCD. y\n"] (by decide) (by decide) (by decide)

/-! ## Relating the two cue patterns (C5) -/

/-- `scanToDot` on a class-clean block followed by a period. -/
theorem scanToDot_append (xs ys : List Char)
    (h : ∀ c ∈ xs, (isUpperAZ c || isPySpace c) = true ∧ c ≠ '.') :
    scanToDot (xs ++ '.' :: ys) = some (xs, ys) := by
  induction xs with
  | nil => simp [scanToDot]
  | cons c xs ih =>
    have hc := h c (List.mem_cons_self _ _)
    rw [List.cons_append, scanToDot, if_neg hc.2, if_pos hc.1,
      ih fun c' hc' => h c' (List.mem_cons_of_mem _ hc')]

/-- Anatomy of a successful speaker-token parse: the label extends the
accumulator by whitespace/uppercase-only material (never a period), and
the input is that material followed by a period and one whitespace
character. -/
theorem speakerTokensF_structure :
    ∀ (fuel : Nat) (acc rest label rem : List Char),
      speakerTokensF fuel acc rest = some (label, rem) →
      ∃ mid w, label = acc ++ mid ∧ rest = mid ++ '.' :: w :: rem ∧
        isPySpace w = true ∧
        ∀ c ∈ mid, (isUpperAZ c || isPySpace c) = true ∧ c ≠ '.' := by
  intro fuel
  induction fuel with
  | zero =>
    intro acc rest label rem h
    simp [speakerTokensF] at h
  | succ n ih =>
    intro acc rest label rem h
    rw [speakerTokensF] at h
    by_cases hcond : (!(rest.takeWhile isPySpace).isEmpty
        && decide (2 ≤ ((rest.dropWhile isPySpace).takeWhile isUpperAZ).length))
        = true
    · rw [if_pos hcond] at h
      obtain ⟨mid', w, hl, hr2, hw, hmid'⟩ := ih _ _ _ _ h
      refine ⟨rest.takeWhile isPySpace
          ++ ((rest.dropWhile isPySpace).takeWhile isUpperAZ ++ mid'), w,
        ?_, ?_, hw, ?_⟩
      · rw [hl]; simp [List.append_assoc]
      · have e1 : rest
            = rest.takeWhile isPySpace ++ rest.dropWhile isPySpace :=
          (List.takeWhile_append_dropWhile _ _).symm
        have e2 : rest.dropWhile isPySpace
            = (rest.dropWhile isPySpace).takeWhile isUpperAZ
              ++ (rest.dropWhile isPySpace).dropWhile isUpperAZ :=
          (List.takeWhile_append_dropWhile _ _).symm
        conv_lhs => rw [e1, e2, hr2]
        simp [List.append_assoc]
      · intro c hc
        rcases List.mem_append.mp hc with hc1 | hc2
        · have hws := List.mem_takeWhile_imp hc1
          refine ⟨by simp [hws], fun e => ?_⟩
          rw [e] at hws
          exact absurd hws (by decide)
        · rcases List.mem_append.mp hc2 with hc3 | hc4
          · have hup := List.mem_takeWhile_imp hc3
            refine ⟨by simp [hup], fun e => ?_⟩
            rw [e] at hup
            exact absurd hup (by decide)
          · exact hmid' c hc4
    · rw [if_neg hcond] at h
      unfold speakerEnd at h
      split at h
      · rename_i w rest'
        by_cases hw : isPySpace w = true
        · rw [if_pos hw] at h
          have h' := Option.some.inj h
          have hlab : acc = label := congrArg Prod.fst h'
          have hrem : rest' = rem := congrArg Prod.snd h'
          subst hlab
          subst hrem
          exact ⟨[], w, by simp, rfl, hw, by simp⟩
        · rw [if_neg hw] at h
          exact absurd h (by simp)
      · exact absurd h (by simp)

/-- **C5, amended.**  Every speaker cue emitted by the dialogue sequencer is
an instance of CharacterExtractor's cue pattern at the same position: a
successful `matchSpeaker` (the text following a newline) yields a
successful `matchCue` with the identical label.  The converse fails — the
two `findall` scans produce different label sets (see the counterexample) —
because the sequencer additionally demands a preceding newline and a
whitespace character after the period, and restricts the label grammar. -/
theorem c5_amended_cue_inclusion (cs label rem : List Char)
    (h : matchSpeaker cs = some (label, rem)) :
    ∃ rem', matchCue cs = some (label, rem') := by
  unfold matchSpeaker at h
  dsimp only at h
  by_cases hr1 : 2 ≤ (cs.takeWhile isUpperAZ).length
  · rw [if_pos hr1] at h
    obtain ⟨mid, w, hlabel, hrest, hw, hmid⟩ :=
      speakerTokensF_structure _ _ _ _ _ h
    obtain ⟨c1, c2, t, hr1eq⟩ :
        ∃ c1 c2 t, cs.takeWhile isUpperAZ = c1 :: c2 :: t := by
      rcases hcw : cs.takeWhile isUpperAZ with _ | ⟨c1, _ | ⟨c2, t⟩⟩
      · rw [hcw] at hr1; simp at hr1
      · rw [hcw] at hr1; simp at hr1
      · exact ⟨c1, c2, t, rfl⟩
    have hup : ∀ c ∈ cs.takeWhile isUpperAZ, isUpperAZ c = true :=
      fun c hc => List.mem_takeWhile_imp hc
    have hc1 : isUpperAZ c1 = true := hup c1 (by rw [hr1eq]; simp)
    have hc2 : isUpperAZ c2 = true := hup c2 (by rw [hr1eq]; simp)
    have htu : ∀ c ∈ t, isUpperAZ c = true :=
      fun c hc => hup c (by rw [hr1eq]; simp [hc])
    have hcs : cs = c1 :: c2 :: (t ++ (mid ++ '.' :: w :: rem)) := by
      conv_lhs =>
        rw [← List.takeWhile_append_dropWhile (p := isUpperAZ) (l := cs)]
      rw [hr1eq, hrest]
      simp
    refine ⟨w :: rem, ?_⟩
    rw [hcs, matchCue, if_pos (by simp [hc1, hc2])]
    have hsc : scanToDot (t ++ (mid ++ '.' :: w :: rem))
        = some (t ++ mid, w :: rem) := by
      rw [← List.append_assoc]
      refine scanToDot_append _ _ ?_
      intro c hc
      rcases List.mem_append.mp hc with hct | hcm
      · refine ⟨by simp [htu c hct], fun e => ?_⟩
        have := htu c hct
        rw [e] at this
        exact absurd this (by decide)
      · exact hmid c hcm
    rw [hsc]
    have : label = c1 :: c2 :: (t ++ mid) := by
      rw [hlabel, hr1eq]
      simp
    rw [this]
  · rw [if_neg hr1] at h
    exact absurd h (by simp)

/-- **C5, amended, witness.**  The cue "HAMLET. x" matched by the sequencer
is also matched by CharacterExtractor's pattern with the same label. -/
theorem c5_amended_cue_inclusion_witness :
    ∃ rem', matchCue "HAMLET. x".data = some ("HAMLET".data, rem') :=
  c5_amended_cue_inclusion "HAMLET. x".data "HAMLET".data "x".data (by decide)

end Shakespeare
